import Mathlib

/-!
Bitonic sort step sequencer: a shallow embedding.

This file embeds the bitonic sort step sequencer of the WebGPU samples
repository (the `bitonicSort` sample) and proves properties of its
step-advance state machine, its span/phase classification, and its
swap-partner prediction function (`setSwappedCell`).

Embedding notes (each definition cites the source lines it translates):

* `dat.gui`'s `Controller.setValue(v)` synchronously assigns
  `this.object[this.property] = v` before returning.  Consequently the
  statement `nextBlockHeightController.setValue(settings['Next Swap Span'] / 2)`
  updates `settings['Next Swap Span']` to `s / 2`, and the subsequent test
  `settings['Next Swap Span'] === 1` reads that updated value `s / 2`.
* JavaScript numbers are IEEE doubles, but every quantity handled by the
  sequencer (spans, block heights, element counts, workgroup sizes) is a
  natural number on which JS arithmetic is exact, so `Nat` is a faithful
  carrier.  `x / 2` in JS is real division; the sequencer only ever halves
  even spans (reachable spans are powers of two ≥ 2, and a span that would
  halve to 1 is intercepted by the `=== 1` branch), so `Nat` division by 2
  agrees with the source on all reachable states.
* `Math.ceil(a / b)` on naturals with `b > 0` is `(a + b - 1) / b`.
* `Math.log2 N` is exact when `N` is a power of two, where it agrees with
  `Nat.log2`.
-/

/-- The five step categories of the sort (`StepEnum` / `StepType`,
bitonicSort `main.ts` lines 10-29). -/
inductive StepType where
  | NONE
  | FLIP_LOCAL
  | DISPERSE_LOCAL
  | FLIP_GLOBAL
  | DISPERSE_GLOBAL
deriving Repr, DecidableEq

/-- `getNumSteps` (lines 61-64): `n * (n + 1) / 2` with `n = Math.log2 N`.
`Math.log2` is exact on powers of two, where it agrees with `Nat.log2`. -/
def getNumSteps (numElements : Nat) : Nat :=
  Nat.log2 numElements * (Nat.log2 numElements + 1) / 2

/-- Model of `Math.ceil(a / b)` for natural `a`, positive natural `b`. -/
def ceilDiv (a b : Nat) : Nat := (a + b - 1) / b

/-- The mutable sequencer state: the fields of the GUI `settings` object
(lines 34-59) that the step-advance logic reads or writes, together with
the module-level `highestBlockHeight` (line 580) and the element array. -/
structure SortState where
  /-- `settings['Total Elements']`. -/
  totalElements : Nat
  /-- `settings['Size Limit']`. -/
  sizeLimit : Nat
  /-- `settings['Workgroup Size']`, maintained as
  `Math.min(totalElements / 2, sizeLimit)` (lines 276-278, 442-448). -/
  workgroupSize : Nat
  /-- `settings['Workgroups Per Step']`,
  `Math.ceil((totalElements - 1) / (sizeLimit * 2))` (lines 281-284, 446-449). -/
  workgroupsPerStep : Nat
  /-- `settings['Total Steps']` = `getNumSteps totalElements` (line 288). -/
  totalSteps : Nat
  /-- `settings['Step Index']`. -/
  stepIndex : Nat
  /-- `settings['Prev Step']`. -/
  prevStep : StepType
  /-- `settings['Prev Swap Span']`. -/
  prevSpan : Nat
  /-- `settings['Next Step']`. -/
  nextStep : StepType
  /-- `settings['Next Swap Span']`. -/
  nextSpan : Nat
  /-- The module-level `highestBlockHeight` variable. -/
  highestBlockHeight : Nat
  /-- The `elements` array. -/
  elements : List Nat
deriving Repr, DecidableEq

/-- The step-advance core (lines 636-661 of `frame`): given the executed
step's span `span` and the current `highestBlockHeight` `hbh`, return the
new `(Next Step, Next Swap Span, highestBlockHeight)`.

Line 637 sets `Next Swap Span := span / 2` via `setValue`, so the test on
line 640 reads `span / 2`; the branches on lines 640-661 then overwrite
`Next Swap Span` and `Next Step` via further `setValue` calls. -/
def seqNext (totalElements wg span hbh : Nat) : StepType × Nat × Nat :=
  let nspan := span / 2
  if nspan == 1 then
    let h := hbh * 2
    if h == totalElements * 2 then (.NONE, 0, h)
    else if h > wg * 2 then (.FLIP_GLOBAL, h, h)
    else (.FLIP_LOCAL, h, h)
  else
    if nspan > wg * 2 then (.DISPERSE_GLOBAL, nspan, hbh)
    else (.DISPERSE_LOCAL, nspan, hbh)

/-- One requested advance of the sequencer: the `executeStep` branch of
`frame` (lines 622-679).  The compute pass, step-index increment and
phase/span update run only under the guard
`highestBlockHeight !== settings['Total Elements'] * 2` (line 624);
otherwise the state is untouched (the readback at lines 682-720 then
reassigns `elements` from the staging buffer, whose content is the output
of the last dispatch, i.e. the current array — no change).

The compare-exchange pass itself runs on the GPU; it is an external
collaborator modelled by the parameter `exec`, applied to the executed
step's phase, span and the current array. -/
def frameStep (exec : StepType → Nat → List Nat → List Nat)
    (s : SortState) : SortState :=
  if s.highestBlockHeight == s.totalElements * 2 then s
  else
    let t := seqNext s.totalElements s.workgroupSize s.nextSpan s.highestBlockHeight
    { s with
      stepIndex := s.stepIndex + 1
      prevStep := s.nextStep
      prevSpan := s.nextSpan
      nextStep := t.1
      nextSpan := t.2.1
      highestBlockHeight := t.2.2
      elements := exec s.nextStep s.nextSpan s.elements }

/-- Session creation: `resizeElementArray` (lines 338-363) together with
`resetExecutionInformation` (lines 274-322).  The element array is created
as `[0, …, N-1]` and then shuffled by `randomizeElementArray`
(`Math.random`, lines 324-336); the shuffled result is taken as the
parameter `es`.  No input validation of any kind is performed and no error
is ever raised: every field is assigned unconditionally. -/
def initState (totalElements sizeLimit : Nat) (es : List Nat) : SortState :=
  { totalElements := totalElements
    sizeLimit := sizeLimit
    workgroupSize := min (totalElements / 2) sizeLimit
    workgroupsPerStep := ceilDiv (totalElements - 1) (sizeLimit * 2)
    totalSteps := getNumSteps totalElements
    stepIndex := 0
    prevStep := .NONE
    prevSpan := 0
    nextStep := .FLIP_LOCAL
    nextSpan := 2
    highestBlockHeight := 2
    elements := es }

/-- The state after `k` requested advances of a freshly created session. -/
def fullRun (totalElements sizeLimit : Nat) (es : List Nat)
    (exec : StepType → Nat → List Nat → List Nat) (k : Nat) : SortState :=
  (frameStep exec)^[k] (initState totalElements sizeLimit es)

/-- The swap-partner predictor `setSwappedCell` (lines 367-402) as a pure
function of `settings['Next Step']`, `settings['Next Swap Span']` and
`settings['Hovered Cell']`.  The `switch` has cases for
`FLIP_LOCAL`/`FLIP_GLOBAL`, `DISPERSE_LOCAL` and `NONE` (the `NONE` case
has no `break` and falls through to `default`, which recomputes the same
self value); `DISPERSE_GLOBAL` has no case of its own and is handled by
`default`, which returns the hovered cell itself.

In the flip branch the JS arithmetic
`blockHeight * (Math.floor(i / blockHeight) + 1) - i % blockHeight - 1`
never goes negative for `blockHeight > 0` since
`i % blockHeight + 1 ≤ blockHeight ≤ blockHeight * (i / blockHeight + 1)`,
so `Nat` subtraction is exact there. -/
def setSwappedCell (nextStep : StepType) (nextSpan hovered : Nat) : Nat :=
  match nextStep with
  | .FLIP_LOCAL | .FLIP_GLOBAL =>
      nextSpan * (hovered / nextSpan + 1) - hovered % nextSpan - 1
  | .DISPERSE_LOCAL =>
      if hovered % nextSpan < nextSpan / 2 then hovered + nextSpan / 2
      else hovered - nextSpan / 2
  | .NONE => hovered
  | .DISPERSE_GLOBAL => hovered

/-- The `Total Elements` dropdown options (lines 71-75):
`for (let i = maxElements; i >= 4; i /= 2) push(i)`.  The loop variable
stays a power of two (it starts at `maxInvocationsX * 32`, a power of two),
so `i / 2` is exact and agrees with `Nat` division. -/
def totalElementOptions (i : Nat) : List Nat :=
  if 4 ≤ i then i :: totalElementOptions (i / 2) else []
termination_by i
decreasing_by omega

/-- The `Size Limit` dropdown options (lines 77-80):
`for (let i = maxInvocationsX; i >= 2; i /= 2) push(i)`. -/
def sizeLimitOptions (i : Nat) : List Nat :=
  if 2 ≤ i then i :: sizeLimitOptions (i / 2) else []
termination_by i
decreasing_by omega

/-- The `k`-th triangular number `k * (k + 1) / 2`, the number of steps of
a bitonic sorting network on `2 ^ k` elements. -/
def tri (k : Nat) : Nat := k * (k + 1) / 2

/-- An executor that leaves the array unchanged; used to instantiate runs
at concrete inputs. -/
def idExec : StepType → Nat → List Nat → List Nat := fun _ _ es => es

/-! Sequencer dynamics on the `(Next Step, Next Swap Span, highestBlockHeight)`
projection.  `seqNext` reads only the span and the block height, so the
phase component is carried along but never consulted. -/

/-- The projection of a session onto the fields the step-advance logic
feeds back into itself. -/
def proj (s : SortState) : StepType × Nat × Nat :=
  (s.nextStep, s.nextSpan, s.highestBlockHeight)

/-- One transition of the projected dynamics. -/
def seqStep (N wg : Nat) (t : StepType × Nat × Nat) : StepType × Nat × Nat :=
  seqNext N wg t.2.1 t.2.2

/-- The projected trace, started from the initial
`(FLIP_LOCAL, span 2, highestBlockHeight 2)` (lines 126, 130, 321, 580). -/
def seqRun (N wg : Nat) (k : Nat) : StepType × Nat × Nat :=
  (seqStep N wg)^[k] (.FLIP_LOCAL, 2, 2)

/-- The phase of the flip that opens a cycle with block height `h`
(lines 647-655). -/
def flipPhase (wg h : Nat) : StepType :=
  if h > wg * 2 then .FLIP_GLOBAL else .FLIP_LOCAL

/-- The phase of a disperse step with span `v` (lines 656-661). -/
def dispPhase (wg v : Nat) : StepType :=
  if v > wg * 2 then .DISPERSE_GLOBAL else .DISPERSE_LOCAL

theorem flipPhase_ne_none (wg h : Nat) : flipPhase wg h ≠ .NONE := by
  unfold flipPhase; split <;> simp

theorem dispPhase_ne_none (wg v : Nat) : dispPhase wg v ≠ .NONE := by
  unfold dispPhase; split <;> simp

/-- Executing a step whose span is `2 ^ (j + 1)` with `j ≥ 1` halves the
span and keeps dispersing within the cycle. -/
theorem seqStep_pow_succ (N wg h : Nat) (p : StepType) (j : Nat) (hj : 1 ≤ j) :
    seqStep N wg (p, 2 ^ (j + 1), h) = (dispPhase wg (2 ^ j), 2 ^ j, h) := by
  have h2 : 2 ^ (j + 1) / 2 = 2 ^ j := by
    rw [pow_succ]; exact Nat.mul_div_cancel _ two_pos
  have h1 : ((2 ^ j : Nat) == 1) = false := by
    simp only [beq_eq_false_iff_ne, ne_eq]
    have : (1 : Nat) < 2 ^ j := Nat.one_lt_two_pow_iff.mpr (by omega)
    omega
  simp only [seqStep, seqNext, h2, h1, dispPhase, Bool.false_eq_true,
    if_false, gt_iff_lt]
  split <;> rfl

/-- Executing a step of span 2 ends the merge cycle: the block height
doubles and the next cycle's flip (or termination) is selected. -/
theorem seqStep_two (N wg h : Nat) (p : StepType) :
    seqStep N wg (p, 2, h) =
      if h * 2 = N * 2 then (.NONE, 0, h * 2)
      else if h * 2 > wg * 2 then (.FLIP_GLOBAL, h * 2, h * 2)
      else (.FLIP_LOCAL, h * 2, h * 2) := by
  simp [seqStep, seqNext]

/-- Running `i < j` steps from the opening of a cycle whose flip span is
`2 ^ j` yields the disperse step of span `2 ^ (j - i)` (the opening flip
itself when `i = 0`), with the block height untouched. -/
theorem seqStep_iterate_partial (N wg h : Nat) (p : StepType) :
    ∀ i j : Nat, 1 ≤ j → i < j →
      (seqStep N wg)^[i] (p, 2 ^ j, h) =
        (if i = 0 then p else dispPhase wg (2 ^ (j - i)), 2 ^ (j - i), h) := by
  intro i
  induction i with
  | zero => intro j hj hij; simp
  | succ m ih =>
    intro j hj hij
    have hm : m < j := by omega
    rw [Function.iterate_succ_apply', ih j hj hm]
    have hjm : j - m = (j - (m + 1)) + 1 := by omega
    have hjm1 : 1 ≤ j - (m + 1) := by omega
    rw [hjm, seqStep_pow_succ N wg h _ _ hjm1]
    simp

/-- Running a full cycle (`j` steps from the flip of span `2 ^ j`) lands on
the cycle-end transition for block height `h`. -/
theorem seqStep_iterate_cycle (N wg h : Nat) (p : StepType) (j : Nat)
    (hj : 1 ≤ j) :
    (seqStep N wg)^[j] (p, 2 ^ j, h) =
      if h * 2 = N * 2 then (.NONE, 0, h * 2)
      else if h * 2 > wg * 2 then (.FLIP_GLOBAL, h * 2, h * 2)
      else (.FLIP_LOCAL, h * 2, h * 2) := by
  obtain ⟨m, rfl⟩ : ∃ m, j = m + 1 := ⟨j - 1, by omega⟩
  rw [Function.iterate_succ_apply',
    seqStep_iterate_partial N wg h p m (m + 1) (by omega) (by omega)]
  have h1 : m + 1 - m = 1 := by omega
  rw [h1, pow_one, seqStep_two]

theorem tri_succ (m : Nat) : tri (m + 1) = tri m + (m + 1) := by
  unfold tri
  obtain ⟨t, ht⟩ : Even (m * (m + 1)) := Nat.even_mul_succ_self m
  have hexp : (m + 1) * (m + 1 + 1) = m * (m + 1) + 2 * (m + 1) := by ring
  omega

/-- Every step index below `tri m` lies inside a unique cycle: it is the
`i`-th step of the cycle with block height `2 ^ c`. -/
theorem tri_decomp : ∀ m k : Nat, k < tri m →
    ∃ c i : Nat, 1 ≤ c ∧ c ≤ m ∧ i < c ∧ k = tri (c - 1) + i := by
  intro m
  induction m with
  | zero => intro k hk; simp [tri] at hk
  | succ m ih =>
    intro k hk
    rcases Nat.lt_or_ge k (tri m) with hlt | hge
    · obtain ⟨c, i, h1, h2, h3, h4⟩ := ih k hlt
      exact ⟨c, i, h1, by omega, h3, h4⟩
    · refine ⟨m + 1, k - tri m, by omega, le_refl _, ?_, ?_⟩
      · have := tri_succ m; omega
      · simp only [Nat.add_sub_cancel]; omega

theorem seqRun_succ (N wg k : Nat) :
    seqRun N wg (k + 1) = seqStep N wg (seqRun N wg k) :=
  Function.iterate_succ_apply' _ _ _

theorem fullRun_succ (N L : Nat) (es : List Nat)
    (exec : StepType → Nat → List Nat → List Nat) (k : Nat) :
    fullRun N L es exec (k + 1) = frameStep exec (fullRun N L es exec k) :=
  Function.iterate_succ_apply' _ _ _

/-- For a valid configuration (`N = 2 ^ n` with `n ≥ 2`, `wg = 2 ^ l` with
`1 ≤ l ≤ n - 1`), the cycle with block height `2 ^ c` opens at step index
`tri (c - 1)` with a flip of span `2 ^ c`. -/
theorem seqRun_cycle_start (n l : Nat) (hl : 1 ≤ l) :
    ∀ c : Nat, 1 ≤ c → c ≤ n →
      seqRun (2 ^ n) (2 ^ l) (tri (c - 1)) =
        (flipPhase (2 ^ l) (2 ^ c), 2 ^ c, 2 ^ c) := by
  have hwg2 : (2 : Nat) ≤ 2 ^ l := by
    calc (2 : Nat) = 2 ^ 1 := (pow_one 2).symm
    _ ≤ 2 ^ l := Nat.pow_le_pow_right (by omega) hl
  intro c
  induction c with
  | zero => intro hc _; omega
  | succ m ih =>
    intro _ hc1
    rcases Nat.eq_zero_or_pos m with rfl | hm
    · have hfl : flipPhase (2 ^ l) (2 ^ 1) = .FLIP_LOCAL := by
        unfold flipPhase
        rw [if_neg]; omega
      have h0 : seqRun (2 ^ n) (2 ^ l) (tri (0 + 1 - 1)) = (.FLIP_LOCAL, 2, 2) := rfl
      rw [h0, hfl]
      norm_num
    · have hstart := ih hm (by omega)
      have htri : tri (m + 1 - 1) = m + tri (m - 1) := by
        have h1 : tri ((m - 1) + 1) = tri (m - 1) + ((m - 1) + 1) := tri_succ (m - 1)
        have h2 : (m - 1) + 1 = m := by omega
        rw [h2] at h1
        simp only [Nat.add_sub_cancel]
        omega
      unfold seqRun at hstart ⊢
      rw [htri, Function.iterate_add_apply, hstart,
        seqStep_iterate_cycle _ _ _ _ m hm]
      have hne : ¬(2 ^ m * 2 = 2 ^ n * 2) := by
        have : (2 : Nat) ^ m < 2 ^ n := Nat.pow_lt_pow_right one_lt_two (by omega)
        omega
      rw [if_neg hne]
      have hspan : (2 : Nat) ^ m * 2 = 2 ^ (m + 1) := (pow_succ 2 m).symm
      unfold flipPhase
      rw [hspan]
      split <;> rfl

/-- Trace characterization: for `k = tri (c - 1) + i` with `i < c ≤ n`, the
`k`-th pending step is the `i`-th step of the cycle with block height
`2 ^ c`: a flip of span `2 ^ c` when `i = 0`, otherwise a disperse of span
`2 ^ (c - i)`. -/
theorem seqRun_char (n l c i : Nat) (hl : 1 ≤ l)
    (hc : 1 ≤ c) (hcn : c ≤ n) (hic : i < c) :
    seqRun (2 ^ n) (2 ^ l) (tri (c - 1) + i) =
      (if i = 0 then flipPhase (2 ^ l) (2 ^ c) else dispPhase (2 ^ l) (2 ^ (c - i)),
        2 ^ (c - i), 2 ^ c) := by
  have h1 := seqRun_cycle_start n l hl c hc hcn
  unfold seqRun at h1 ⊢
  rw [Nat.add_comm, Function.iterate_add_apply, h1,
    seqStep_iterate_partial _ _ _ _ i c hc hic]

/-- After `tri n` steps the sequencer reaches the terminal
`(NONE, 0, 2 * totalElements)` state. -/
theorem seqRun_end (n l : Nat) (hn : 1 ≤ n) (hl : 1 ≤ l) :
    seqRun (2 ^ n) (2 ^ l) (tri n) = (.NONE, 0, 2 ^ n * 2) := by
  have h1 := seqRun_cycle_start n l hl n hn le_rfl
  have htri : tri n = n + tri (n - 1) := by
    have h2 : tri ((n - 1) + 1) = tri (n - 1) + ((n - 1) + 1) := tri_succ (n - 1)
    have h3 : (n - 1) + 1 = n := by omega
    rw [h3] at h2
    omega
  unfold seqRun at h1 ⊢
  rw [htri, Function.iterate_add_apply, h1,
    seqStep_iterate_cycle _ _ _ _ n hn, if_pos rfl]

theorem frameStep_fix (exec : StepType → Nat → List Nat → List Nat)
    (s : SortState) (h : s.highestBlockHeight = s.totalElements * 2) :
    frameStep exec s = s := by
  simp [frameStep, h]

/-- `frame` never writes the configuration fields. -/
theorem fullRun_const (N L : Nat) (es : List Nat)
    (exec : StepType → Nat → List Nat → List Nat) (k : Nat) :
    (fullRun N L es exec k).totalElements = N ∧
      (fullRun N L es exec k).sizeLimit = L ∧
      (fullRun N L es exec k).workgroupSize = min (N / 2) L ∧
      (fullRun N L es exec k).workgroupsPerStep = ceilDiv (N - 1) (L * 2) ∧
      (fullRun N L es exec k).totalSteps = getNumSteps N := by
  induction k with
  | zero => exact ⟨rfl, rfl, rfl, rfl, rfl⟩
  | succ k ih =>
    rw [fullRun_succ]
    unfold frameStep
    split
    · exact ih
    · exact ih

theorem proj_frameStep (exec : StepType → Nat → List Nat → List Nat)
    (s : SortState) (h : s.highestBlockHeight ≠ s.totalElements * 2) :
    proj (frameStep exec s) = seqStep s.totalElements s.workgroupSize (proj s) := by
  have hb : (s.highestBlockHeight == s.totalElements * 2) = false := by
    simp [h]
  simp [frameStep, hb, proj, seqStep, seqNext]

/-- For a valid configuration, the effective workgroup size
`min (totalElements / 2) sizeLimit` equals the size limit. -/
theorem workgroupSize_valid (n l : Nat) (_hl1 : 1 ≤ l) (hln : l ≤ n - 1)
    (hn : 1 ≤ n) : min (2 ^ n / 2) (2 ^ l) = 2 ^ l := by
  have h2 : (2 : Nat) ^ n / 2 = 2 ^ (n - 1) := by
    have he : (2 : Nat) ^ n = 2 ^ (n - 1) * 2 := by
      rw [← pow_succ]
      congr 1
      omega
    rw [he]
    exact Nat.mul_div_cancel _ two_pos
  rw [h2]
  exact min_eq_right (Nat.pow_le_pow_right (by omega) hln)

/-- On a valid configuration the session run projects, step for step, onto
the `seqRun` trace for as long as the sort is incomplete. -/
theorem fullRun_proj (n l : Nat) (es : List Nat)
    (exec : StepType → Nat → List Nat → List Nat)
    (hn : 2 ≤ n) (hl : 1 ≤ l) (hln : l ≤ n - 1) :
    ∀ k, k ≤ tri n →
      proj (fullRun (2 ^ n) (2 ^ l) es exec k) = seqRun (2 ^ n) (2 ^ l) k := by
  intro k
  induction k with
  | zero => intro _; rfl
  | succ k ih =>
    intro hk1
    have hk : k < tri n := by omega
    have ihk := ih (by omega)
    obtain ⟨c, i, hc1, hcn, hic, hkeq⟩ := tri_decomp n k hk
    have hchar := seqRun_char n l c i hl hc1 hcn hic
    have hbh : (fullRun (2 ^ n) (2 ^ l) es exec k).highestBlockHeight = 2 ^ c := by
      have h1 : (proj (fullRun (2 ^ n) (2 ^ l) es exec k)).2.2 =
          (seqRun (2 ^ n) (2 ^ l) k).2.2 := by rw [ihk]
      rw [hkeq] at h1 ⊢
      rw [hchar] at h1
      exact h1
    obtain ⟨hte, _, hwgf, _, _⟩ := fullRun_const (2 ^ n) (2 ^ l) es exec k
    have hne : (fullRun (2 ^ n) (2 ^ l) es exec k).highestBlockHeight ≠
        (fullRun (2 ^ n) (2 ^ l) es exec k).totalElements * 2 := by
      rw [hbh, hte]
      have hlt : (2 : Nat) ^ c < 2 ^ (n + 1) :=
        Nat.pow_lt_pow_right one_lt_two (by omega)
      have hpe : (2 : Nat) ^ (n + 1) = 2 ^ n * 2 := pow_succ 2 n
      omega
    rw [fullRun_succ, proj_frameStep exec _ hne, hte, hwgf,
      workgroupSize_valid n l hl hln (by omega), ihk, seqRun_succ]

/-- Once the terminal block height is reached, the session state is frozen:
every further advance returns it unchanged. -/
theorem fullRun_frozen (n l : Nat) (es : List Nat)
    (exec : StepType → Nat → List Nat → List Nat)
    (hn : 2 ≤ n) (hl : 1 ≤ l) (hln : l ≤ n - 1) :
    ∀ m, fullRun (2 ^ n) (2 ^ l) es exec (tri n + m) =
      fullRun (2 ^ n) (2 ^ l) es exec (tri n) := by
  have hbh : (fullRun (2 ^ n) (2 ^ l) es exec (tri n)).highestBlockHeight =
      (fullRun (2 ^ n) (2 ^ l) es exec (tri n)).totalElements * 2 := by
    have h1 : (proj (fullRun (2 ^ n) (2 ^ l) es exec (tri n))).2.2 =
        (seqRun (2 ^ n) (2 ^ l) (tri n)).2.2 := by
      rw [fullRun_proj n l es exec hn hl hln (tri n) le_rfl]
    rw [seqRun_end n l (by omega) hl] at h1
    obtain ⟨hte, _, _, _, _⟩ := fullRun_const (2 ^ n) (2 ^ l) es exec (tri n)
    rw [hte]
    exact h1
  intro m
  induction m with
  | zero => rfl
  | succ m ih =>
    have h1 : tri n + (m + 1) = (tri n + m) + 1 := rfl
    rw [h1, fullRun_succ, ih, frameStep_fix _ _ hbh]

/-- At step index `tri n` the session carries the terminal block height
`totalElements * 2`. -/
theorem fullRun_end_terminal (n l : Nat) (es : List Nat)
    (exec : StepType → Nat → List Nat → List Nat)
    (hn : 2 ≤ n) (hl : 1 ≤ l) (hln : l ≤ n - 1) :
    (fullRun (2 ^ n) (2 ^ l) es exec (tri n)).highestBlockHeight =
      (fullRun (2 ^ n) (2 ^ l) es exec (tri n)).totalElements * 2 := by
  have h1 : (proj (fullRun (2 ^ n) (2 ^ l) es exec (tri n))).2.2 =
      (seqRun (2 ^ n) (2 ^ l) (tri n)).2.2 := by
    rw [fullRun_proj n l es exec hn hl hln (tri n) le_rfl]
  rw [seqRun_end n l (by omega) hl] at h1
  obtain ⟨hte, _, _, _, _⟩ := fullRun_const (2 ^ n) (2 ^ l) es exec (tri n)
  rw [hte]
  exact h1

/-- The pending phase of every step strictly before completion. -/
theorem fullRun_nextStep_mid (n l : Nat) (es : List Nat)
    (exec : StepType → Nat → List Nat → List Nat)
    (hn : 2 ≤ n) (hl : 1 ≤ l) (hln : l ≤ n - 1)
    (c i : Nat) (hc : 1 ≤ c) (hcn : c ≤ n) (hic : i < c) :
    (fullRun (2 ^ n) (2 ^ l) es exec (tri (c - 1) + i)).nextStep =
        (if i = 0 then flipPhase (2 ^ l) (2 ^ c) else dispPhase (2 ^ l) (2 ^ (c - i))) ∧
      (fullRun (2 ^ n) (2 ^ l) es exec (tri (c - 1) + i)).nextSpan = 2 ^ (c - i) := by
  have hk : tri (c - 1) + i ≤ tri n := by
    have hd1 : tri ((c - 1) + 1) = tri (c - 1) + ((c - 1) + 1) := tri_succ (c - 1)
    have hd2 : (c - 1) + 1 = c := by omega
    rw [hd2] at hd1
    have hmono : tri c ≤ tri n := by
      have : ∀ a b : Nat, a ≤ b → tri a ≤ tri b := by
        intro a b hab
        unfold tri
        exact Nat.div_le_div_right (Nat.mul_le_mul hab (by omega))
      exact this c n hcn
    omega
  have hproj := fullRun_proj n l es exec hn hl hln (tri (c - 1) + i) hk
  rw [seqRun_char n l c i hl hc hcn hic] at hproj
  have h1 : (proj (fullRun (2 ^ n) (2 ^ l) es exec (tri (c - 1) + i))).1 =
      (fullRun (2 ^ n) (2 ^ l) es exec (tri (c - 1) + i)).nextStep := rfl
  have h2 : (proj (fullRun (2 ^ n) (2 ^ l) es exec (tri (c - 1) + i))).2.1 =
      (fullRun (2 ^ n) (2 ^ l) es exec (tri (c - 1) + i)).nextSpan := rfl
  constructor
  · rw [← h1, hproj]
  · rw [← h2, hproj]

/-- C3.  For every valid power-of-two configuration the sequencer reaches
phase `NONE` after exactly `n * (n + 1) / 2` executed steps, `n = log2 N`,
and this value is what `getNumSteps` computes and what the session reports
as `Total Steps`. -/
theorem c3_total_step_count (n l : Nat) (es : List Nat)
    (exec : StepType → Nat → List Nat → List Nat)
    (hn : 2 ≤ n) (hl : 1 ≤ l) (hln : l ≤ n - 1) :
    getNumSteps (2 ^ n) = n * (n + 1) / 2 ∧
      (∀ k, (fullRun (2 ^ n) (2 ^ l) es exec k).totalSteps = n * (n + 1) / 2) ∧
      (fullRun (2 ^ n) (2 ^ l) es exec (n * (n + 1) / 2)).nextStep = .NONE ∧
      (∀ k, k < n * (n + 1) / 2 →
        (fullRun (2 ^ n) (2 ^ l) es exec k).nextStep ≠ .NONE) := by
  have hlog : getNumSteps (2 ^ n) = n * (n + 1) / 2 := by
    unfold getNumSteps
    rw [Nat.log2_eq_log_two, Nat.log_pow (by omega)]
  have htri : n * (n + 1) / 2 = tri n := rfl
  refine ⟨hlog, ?_, ?_, ?_⟩
  · intro k
    obtain ⟨_, _, _, _, hts⟩ := fullRun_const (2 ^ n) (2 ^ l) es exec k
    rw [hts, hlog]
  · have h1 : (proj (fullRun (2 ^ n) (2 ^ l) es exec (tri n))).1 =
        (seqRun (2 ^ n) (2 ^ l) (tri n)).1 := by
      rw [fullRun_proj n l es exec hn hl hln (tri n) le_rfl]
    rw [seqRun_end n l (by omega) hl] at h1
    rw [htri]
    exact h1
  · intro k hk
    rw [htri] at hk
    obtain ⟨c, i, hc, hcn, hic, hkeq⟩ := tri_decomp n k hk
    rw [hkeq]
    rw [(fullRun_nextStep_mid n l es exec hn hl hln c i hc hcn hic).1]
    split
    · exact flipPhase_ne_none _ _
    · exact dispPhase_ne_none _ _

/-- C3 witness: the N = 4, L = 2 session reaches `NONE` in exactly 3 steps. -/
theorem c3_total_step_count_witness :
    (2 ≤ 2 ∧ 1 ≤ 1 ∧ 1 ≤ 2 - 1) ∧
      (getNumSteps (2 ^ 2) = 2 * (2 + 1) / 2 ∧
        (∀ k, (fullRun (2 ^ 2) (2 ^ 1) [3, 1, 0, 2] idExec k).totalSteps =
          2 * (2 + 1) / 2) ∧
        (fullRun (2 ^ 2) (2 ^ 1) [3, 1, 0, 2] idExec (2 * (2 + 1) / 2)).nextStep =
          .NONE ∧
        (∀ k, k < 2 * (2 + 1) / 2 →
          (fullRun (2 ^ 2) (2 ^ 1) [3, 1, 0, 2] idExec k).nextStep ≠ .NONE)) :=
  ⟨⟨by omega, by omega, by omega⟩,
    c3_total_step_count 2 1 [3, 1, 0, 2] idExec (by omega) (by omega) (by omega)⟩

/-- C10.  On a valid configuration no executed step ever has span 1: every
pending span before completion is a power of two in `[2, totalElements]`,
and the last executed step of the sort is a `DISPERSE_LOCAL` of span 2. -/
theorem c10_no_span_one (n l : Nat) (es : List Nat)
    (exec : StepType → Nat → List Nat → List Nat)
    (hn : 2 ≤ n) (hl : 1 ≤ l) (hln : l ≤ n - 1) :
    (∀ k, k < n * (n + 1) / 2 →
        (fullRun (2 ^ n) (2 ^ l) es exec k).nextSpan ≠ 1 ∧
        2 ≤ (fullRun (2 ^ n) (2 ^ l) es exec k).nextSpan ∧
        (fullRun (2 ^ n) (2 ^ l) es exec k).nextSpan ≤ 2 ^ n ∧
        (∃ j, (fullRun (2 ^ n) (2 ^ l) es exec k).nextSpan = 2 ^ j)) ∧
      (fullRun (2 ^ n) (2 ^ l) es exec (n * (n + 1) / 2 - 1)).nextStep =
        .DISPERSE_LOCAL ∧
      (fullRun (2 ^ n) (2 ^ l) es exec (n * (n + 1) / 2 - 1)).nextSpan = 2 := by
  have htri : n * (n + 1) / 2 = tri n := rfl
  refine ⟨?_, ?_, ?_⟩
  · intro k hk
    rw [htri] at hk
    obtain ⟨c, i, hc, hcn, hic, hkeq⟩ := tri_decomp n k hk
    rw [hkeq,
      (fullRun_nextStep_mid n l es exec hn hl hln c i hc hcn hic).2]
    have h1 : 1 ≤ c - i := by omega
    have hlo : (2 : Nat) ^ 1 ≤ 2 ^ (c - i) := Nat.pow_le_pow_right (by omega) h1
    have hhi : (2 : Nat) ^ (c - i) ≤ 2 ^ n :=
      Nat.pow_le_pow_right (by omega) (by omega)
    rw [pow_one] at hlo
    exact ⟨by omega, hlo, hhi, ⟨c - i, rfl⟩⟩
  · have hfin : n * (n + 1) / 2 - 1 = tri (n - 1) + (n - 1) := by
      have hd1 : tri ((n - 1) + 1) = tri (n - 1) + ((n - 1) + 1) := tri_succ (n - 1)
      have hd2 : (n - 1) + 1 = n := by omega
      rw [hd2] at hd1
      rw [htri]
      omega
    rw [hfin,
      (fullRun_nextStep_mid n l es exec hn hl hln n (n - 1) (by omega) le_rfl
        (by omega)).1]
    have hi0 : ¬(n - 1 = 0) := by omega
    rw [if_neg hi0]
    have hs : n - (n - 1) = 1 := by omega
    rw [hs, pow_one]
    unfold dispPhase
    rw [if_neg]
    have : (2 : Nat) ≤ 2 ^ l := by
      calc (2 : Nat) = 2 ^ 1 := (pow_one 2).symm
      _ ≤ 2 ^ l := Nat.pow_le_pow_right (by omega) hl
    omega
  · have hfin : n * (n + 1) / 2 - 1 = tri (n - 1) + (n - 1) := by
      have hd1 : tri ((n - 1) + 1) = tri (n - 1) + ((n - 1) + 1) := tri_succ (n - 1)
      have hd2 : (n - 1) + 1 = n := by omega
      rw [hd2] at hd1
      rw [htri]
      omega
    rw [hfin,
      (fullRun_nextStep_mid n l es exec hn hl hln n (n - 1) (by omega) le_rfl
        (by omega)).2]
    have hs : n - (n - 1) = 1 := by omega
    rw [hs, pow_one]

/-- C10 witness: N = 8, L = 4. -/
theorem c10_no_span_one_witness :
    (2 ≤ 3 ∧ 1 ≤ 2 ∧ 2 ≤ 3 - 1) ∧
      ((∀ k, k < 3 * (3 + 1) / 2 →
          (fullRun (2 ^ 3) (2 ^ 2) [0, 1, 2, 3, 4, 5, 6, 7] idExec k).nextSpan ≠ 1 ∧
          2 ≤ (fullRun (2 ^ 3) (2 ^ 2) [0, 1, 2, 3, 4, 5, 6, 7] idExec k).nextSpan ∧
          (fullRun (2 ^ 3) (2 ^ 2) [0, 1, 2, 3, 4, 5, 6, 7] idExec k).nextSpan ≤ 2 ^ 3 ∧
          (∃ j, (fullRun (2 ^ 3) (2 ^ 2) [0, 1, 2, 3, 4, 5, 6, 7] idExec k).nextSpan = 2 ^ j)) ∧
        (fullRun (2 ^ 3) (2 ^ 2) [0, 1, 2, 3, 4, 5, 6, 7] idExec (3 * (3 + 1) / 2 - 1)).nextStep =
          .DISPERSE_LOCAL ∧
        (fullRun (2 ^ 3) (2 ^ 2) [0, 1, 2, 3, 4, 5, 6, 7] idExec (3 * (3 + 1) / 2 - 1)).nextSpan = 2) :=
  ⟨⟨by omega, by omega, by omega⟩,
    c10_no_span_one 3 2 [0, 1, 2, 3, 4, 5, 6, 7] idExec (by omega) (by omega)
      (by omega)⟩

/-- C7.  Advancing a session whose pending phase is already `NONE` leaves
the whole session state — phase, span, step index, block height and element
array — unchanged (and, the transition being a total function, no error is
raised). -/
theorem c7_advance_none_noop (n l k : Nat) (es : List Nat)
    (exec : StepType → Nat → List Nat → List Nat)
    (hn : 2 ≤ n) (hl : 1 ≤ l) (hln : l ≤ n - 1)
    (hNone : (fullRun (2 ^ n) (2 ^ l) es exec k).nextStep = .NONE) :
    frameStep exec (fullRun (2 ^ n) (2 ^ l) es exec k) =
      fullRun (2 ^ n) (2 ^ l) es exec k := by
  rcases Nat.lt_or_ge k (tri n) with hk | hk
  · exfalso
    obtain ⟨c, i, hc, hcn, hic, hkeq⟩ := tri_decomp n k hk
    rw [hkeq,
      (fullRun_nextStep_mid n l es exec hn hl hln c i hc hcn hic).1] at hNone
    rcases Nat.eq_zero_or_pos i with hi0 | hi0
    · rw [if_pos hi0] at hNone
      exact flipPhase_ne_none _ _ hNone
    · rw [if_neg (by omega)] at hNone
      exact dispPhase_ne_none _ _ hNone
  · obtain ⟨m, rfl⟩ : ∃ m, k = tri n + m := ⟨k - tri n, by omega⟩
    rw [fullRun_frozen n l es exec hn hl hln m]
    exact frameStep_fix exec _ (fullRun_end_terminal n l es exec hn hl hln)

/-- C7 witness: the N = 4, L = 2 session is at `NONE` after its 3 steps,
and a further advance returns it verbatim. -/
theorem c7_advance_none_noop_witness :
    (2 ≤ 2 ∧ 1 ≤ 1 ∧ 1 ≤ 2 - 1 ∧
        (fullRun (2 ^ 2) (2 ^ 1) [2, 0, 3, 1] idExec 3).nextStep = .NONE) ∧
      frameStep idExec (fullRun (2 ^ 2) (2 ^ 1) [2, 0, 3, 1] idExec 3) =
        fullRun (2 ^ 2) (2 ^ 1) [2, 0, 3, 1] idExec 3 :=
  ⟨⟨by omega, by omega, by omega, by decide⟩,
    c7_advance_none_noop 2 1 3 [2, 0, 3, 1] idExec (by omega) (by omega)
      (by omega) (by decide)⟩

/-- Components of an advance that actually executes a step (guard on line
624 passes). -/
theorem frameStep_active (exec : StepType → Nat → List Nat → List Nat)
    (s : SortState) (h : s.highestBlockHeight ≠ s.totalElements * 2) :
    (frameStep exec s).nextStep =
        (seqNext s.totalElements s.workgroupSize s.nextSpan s.highestBlockHeight).1 ∧
      (frameStep exec s).nextSpan =
        (seqNext s.totalElements s.workgroupSize s.nextSpan s.highestBlockHeight).2.1 ∧
      (frameStep exec s).highestBlockHeight =
        (seqNext s.totalElements s.workgroupSize s.nextSpan s.highestBlockHeight).2.2 ∧
      (frameStep exec s).stepIndex = s.stepIndex + 1 ∧
      (frameStep exec s).prevStep = s.nextStep ∧
      (frameStep exec s).prevSpan = s.nextSpan ∧
      (frameStep exec s).elements = exec s.nextStep s.nextSpan s.elements := by
  have hb : (s.highestBlockHeight == s.totalElements * 2) = false := by simp [h]
  simp [frameStep, hb]

theorem seqNext_two (N wg h : Nat) :
    seqNext N wg 2 h =
      if h * 2 = N * 2 then (.NONE, 0, h * 2)
      else if h * 2 > wg * 2 then (.FLIP_GLOBAL, h * 2, h * 2)
      else (.FLIP_LOCAL, h * 2, h * 2) :=
  seqStep_two N wg h .NONE

theorem seqNext_ne_one (N wg span hbh : Nat) (h : span / 2 ≠ 1) :
    seqNext N wg span hbh =
      if span / 2 > wg * 2 then (.DISPERSE_GLOBAL, span / 2, hbh)
      else (.DISPERSE_LOCAL, span / 2, hbh) := by
  have hb : (span / 2 == 1) = false := by simp [h]
  simp only [seqNext, hb, Bool.false_eq_true, if_false]

/-- C1 (amended).  A merge cycle ends when a step of span 2 executes (the
halved next span reaching 1): the block height doubles, and the next step
is `NONE` with span 0 at height `totalElements * 2`, a `FLIP_GLOBAL` of the
new height when it exceeds `sizeLimit * 2` (the code compares against
`Workgroup Size * 2`, which equals `sizeLimit * 2` on any session with
`workgroupSize = sizeLimit`), and a `FLIP_LOCAL` of the new height
otherwise.  For N = 8, L = 8: step 0 is `FLIP_LOCAL` with span 2, and its
execution triggers `highestBlockHeight = 4` and next phase `FLIP_LOCAL`
with span 4, which is step 1. -/
theorem c1_cycle_end_transition (exec : StepType → Nat → List Nat → List Nat)
    (s : SortState) (hwg : s.workgroupSize = s.sizeLimit)
    (hrun : s.highestBlockHeight ≠ s.totalElements * 2)
    (hspan : s.nextSpan = 2) :
    (frameStep exec s).highestBlockHeight = s.highestBlockHeight * 2 ∧
      ((frameStep exec s).nextStep, (frameStep exec s).nextSpan) =
        (if s.highestBlockHeight * 2 = s.totalElements * 2 then
          ((.NONE : StepType), 0)
        else if s.highestBlockHeight * 2 > s.sizeLimit * 2 then
          (.FLIP_GLOBAL, s.highestBlockHeight * 2)
        else (.FLIP_LOCAL, s.highestBlockHeight * 2)) ∧
      (fullRun 8 8 (List.range 8) idExec 0).nextStep = .FLIP_LOCAL ∧
      (fullRun 8 8 (List.range 8) idExec 0).nextSpan = 2 ∧
      (fullRun 8 8 (List.range 8) idExec 1).highestBlockHeight = 4 ∧
      (fullRun 8 8 (List.range 8) idExec 1).nextStep = .FLIP_LOCAL ∧
      (fullRun 8 8 (List.range 8) idExec 1).nextSpan = 4 := by
  obtain ⟨hns, hnsp, hhbh, _, _, _, _⟩ := frameStep_active exec s hrun
  rw [hspan, hwg, seqNext_two] at hns hnsp hhbh
  refine ⟨?_, ?_, by decide, by decide, by decide, by decide, by decide⟩
  · split_ifs at hhbh <;> exact hhbh
  · rw [hns, hnsp]
    split_ifs <;> rfl

/-- C1 witness: the N = 8, L = 4 session right before its span-2 disperse
step (step index 2) satisfies the hypotheses, and executing that step
doubles the block height to 8 and opens a `FLIP_LOCAL` cycle of span 8. -/
theorem c1_cycle_end_transition_witness :
    ((fullRun 8 4 [] idExec 2).workgroupSize = (fullRun 8 4 [] idExec 2).sizeLimit ∧
        (fullRun 8 4 [] idExec 2).highestBlockHeight ≠
          (fullRun 8 4 [] idExec 2).totalElements * 2 ∧
        (fullRun 8 4 [] idExec 2).nextSpan = 2) ∧
      ((frameStep idExec (fullRun 8 4 [] idExec 2)).highestBlockHeight =
          (fullRun 8 4 [] idExec 2).highestBlockHeight * 2 ∧
        ((frameStep idExec (fullRun 8 4 [] idExec 2)).nextStep,
            (frameStep idExec (fullRun 8 4 [] idExec 2)).nextSpan) =
          (if (fullRun 8 4 [] idExec 2).highestBlockHeight * 2 =
              (fullRun 8 4 [] idExec 2).totalElements * 2 then
            ((.NONE : StepType), 0)
          else if (fullRun 8 4 [] idExec 2).highestBlockHeight * 2 >
              (fullRun 8 4 [] idExec 2).sizeLimit * 2 then
            (.FLIP_GLOBAL, (fullRun 8 4 [] idExec 2).highestBlockHeight * 2)
          else (.FLIP_LOCAL, (fullRun 8 4 [] idExec 2).highestBlockHeight * 2)) ∧
        (fullRun 8 8 (List.range 8) idExec 0).nextStep = .FLIP_LOCAL ∧
        (fullRun 8 8 (List.range 8) idExec 0).nextSpan = 2 ∧
        (fullRun 8 8 (List.range 8) idExec 1).highestBlockHeight = 4 ∧
        (fullRun 8 8 (List.range 8) idExec 1).nextStep = .FLIP_LOCAL ∧
        (fullRun 8 8 (List.range 8) idExec 1).nextSpan = 4) :=
  ⟨⟨by decide, by decide, by decide⟩,
    c1_cycle_end_transition idExec (fullRun 8 4 [] idExec 2) (by decide)
      (by decide) (by decide)⟩

/-- C1 counterexample to the claim as stated: for N = 8, L = 8 the step at
index 1 is a `FLIP_LOCAL` of span 4, not a `DISPERSE_LOCAL` of span 1 (no
span-1 step is ever executed; the cycle ends already after the span-2
step). -/
theorem c1_step_one_counterexample :
    (fullRun 8 8 (List.range 8) idExec 1).nextStep = .FLIP_LOCAL ∧
      (fullRun 8 8 (List.range 8) idExec 1).nextSpan = 4 ∧
      ¬((fullRun 8 8 (List.range 8) idExec 1).nextStep = .DISPERSE_LOCAL ∧
        (fullRun 8 8 (List.range 8) idExec 1).nextSpan = 1) := by
  decide

/-- C4 (amended).  After a step executes whose span `s` halves to a value
other than 1 (i.e. `s ≠ 2` among executed steps), the next span is `s / 2`
and the next phase is `DISPERSE_GLOBAL` when `s / 2 > sizeLimit * 2`
(the code compares against `Workgroup Size * 2 = sizeLimit * 2` on
sessions with `workgroupSize = sizeLimit`) and `DISPERSE_LOCAL` otherwise;
the block height is unchanged. -/
theorem c4_disperse_transition (exec : StepType → Nat → List Nat → List Nat)
    (s : SortState) (hwg : s.workgroupSize = s.sizeLimit)
    (hrun : s.highestBlockHeight ≠ s.totalElements * 2)
    (hspan : s.nextSpan / 2 ≠ 1) :
    (frameStep exec s).nextSpan = s.nextSpan / 2 ∧
      (frameStep exec s).nextStep =
        (if s.nextSpan / 2 > s.sizeLimit * 2 then .DISPERSE_GLOBAL
        else .DISPERSE_LOCAL) ∧
      (frameStep exec s).highestBlockHeight = s.highestBlockHeight := by
  obtain ⟨hns, hnsp, hhbh, _, _, _, _⟩ := frameStep_active exec s hrun
  rw [hwg, seqNext_ne_one _ _ _ _ hspan] at hns hnsp hhbh
  refine ⟨?_, ?_, ?_⟩
  · rw [hnsp]; split_ifs <;> rfl
  · rw [hns]; split_ifs <;> rfl
  · rw [hhbh]; split_ifs <;> rfl

/-- C4 witness: the N = 8, L = 4 session at step index 1 (pending
`FLIP_LOCAL` of span 4): executing it yields span 2 and `DISPERSE_LOCAL`,
with the block height kept at 4. -/
theorem c4_disperse_transition_witness :
    ((fullRun 8 4 [] idExec 1).workgroupSize = (fullRun 8 4 [] idExec 1).sizeLimit ∧
        (fullRun 8 4 [] idExec 1).highestBlockHeight ≠
          (fullRun 8 4 [] idExec 1).totalElements * 2 ∧
        (fullRun 8 4 [] idExec 1).nextSpan / 2 ≠ 1) ∧
      ((frameStep idExec (fullRun 8 4 [] idExec 1)).nextSpan =
          (fullRun 8 4 [] idExec 1).nextSpan / 2 ∧
        (frameStep idExec (fullRun 8 4 [] idExec 1)).nextStep =
          (if (fullRun 8 4 [] idExec 1).nextSpan / 2 >
              (fullRun 8 4 [] idExec 1).sizeLimit * 2 then .DISPERSE_GLOBAL
          else .DISPERSE_LOCAL) ∧
        (frameStep idExec (fullRun 8 4 [] idExec 1)).highestBlockHeight =
          (fullRun 8 4 [] idExec 1).highestBlockHeight) :=
  ⟨⟨by decide, by decide, by decide⟩,
    c4_disperse_transition idExec (fullRun 8 4 [] idExec 1) (by decide)
      (by decide) (by decide)⟩

/-- C4 counterexample to the claim as stated: for N = 8, L = 8 the step at
index 2 has span 2 (≠ 1), yet executing it does not yield span 2 / 2 = 1
with phase `DISPERSE_LOCAL` — it ends the cycle with a `FLIP_LOCAL` of
span 8. -/
theorem c4_span_two_counterexample :
    (fullRun 8 8 [0, 1, 2, 3, 4, 5, 6, 7] idExec 2).nextSpan = 2 ∧
      (fullRun 8 8 [0, 1, 2, 3, 4, 5, 6, 7] idExec 2).nextSpan ≠ 1 ∧
      (fullRun 8 8 [0, 1, 2, 3, 4, 5, 6, 7] idExec 3).nextSpan = 8 ∧
      (fullRun 8 8 [0, 1, 2, 3, 4, 5, 6, 7] idExec 3).nextSpan ≠
        (fullRun 8 8 [0, 1, 2, 3, 4, 5, 6, 7] idExec 2).nextSpan / 2 ∧
      (fullRun 8 8 [0, 1, 2, 3, 4, 5, 6, 7] idExec 3).nextStep ≠
        .DISPERSE_LOCAL := by
  decide

/-- The flip pairing is an involution for any positive span. -/
theorem flip_involution (h i : Nat) (hh : 0 < h) :
    setSwappedCell .FLIP_LOCAL h (setSwappedCell .FLIP_LOCAL h i) = i := by
  have hr : i % h < h := Nat.mod_lt _ hh
  have hqr : h * (i / h) + i % h = i := Nat.div_add_mod i h
  have hmul : h * (i / h + 1) = h * (i / h) + h := by ring
  have hp : h * (i / h + 1) - i % h - 1 = h * (i / h) + (h - 1 - i % h) := by
    omega
  have hlt : h - 1 - i % h < h := by omega
  have hdiv : (h * (i / h) + (h - 1 - i % h)) / h = i / h := by
    rw [Nat.mul_add_div hh, Nat.div_eq_of_lt hlt, Nat.add_zero]
  have hmod : (h * (i / h) + (h - 1 - i % h)) % h = h - 1 - i % h := by
    rw [Nat.mul_add_mod, Nat.mod_eq_of_lt hlt]
  show h * ((h * (i / h + 1) - i % h - 1) / h + 1) -
      (h * (i / h + 1) - i % h - 1) % h - 1 = i
  rw [hp, hdiv, hmod]
  omega

/-- The disperse pairing is an involution for any even span `2 * m`,
`m ≥ 1`. -/
theorem disp_involution (h i m : Nat) (hm : h = 2 * m) (hm1 : 1 ≤ m) :
    setSwappedCell .DISPERSE_LOCAL h (setSwappedCell .DISPERSE_LOCAL h i) = i := by
  have hhalf : h / 2 = m := by omega
  have hh : 0 < h := by omega
  have hr : i % h < h := Nat.mod_lt _ hh
  have hqr : h * (i / h) + i % h = i := Nat.div_add_mod i h
  have hinner : setSwappedCell .DISPERSE_LOCAL h i =
      if i % h < m then i + m else i - m := by
    show (if i % h < h / 2 then i + h / 2 else i - h / 2) = _
    rw [hhalf]
  rw [hinner]
  by_cases hc : i % h < m
  · rw [if_pos hc]
    have hmod2 : (i + m) % h = i % h + m := by
      have he : i + m = h * (i / h) + (i % h + m) := by omega
      rw [he, Nat.mul_add_mod, Nat.mod_eq_of_lt (by omega)]
    show (if (i + m) % h < h / 2 then i + m + h / 2 else i + m - h / 2) = i
    rw [hhalf, hmod2, if_neg (by omega)]
    omega
  · rw [if_neg hc]
    have him : m ≤ i := le_trans (by omega) (Nat.mod_le i h)
    have hmod2 : (i - m) % h = i % h - m := by
      have he : i - m = h * (i / h) + (i % h - m) := by omega
      rw [he, Nat.mul_add_mod, Nat.mod_eq_of_lt (by omega)]
    show (if (i - m) % h < h / 2 then i - m + h / 2 else i - m - h / 2) = i
    rw [hhalf, hmod2, if_pos (by omega)]
    omega

/-- C5.  For every valid index and every phase with a valid span (0 for
`NONE`, a power of two ≥ 2 dividing the element count otherwise), applying
the swap-partner predictor twice returns the original index. -/
theorem c5_partner_involution (phase : StepType) (N h i : Nat) (_hiN : i < N)
    (hvalid : (phase = .NONE ∧ h = 0) ∨ (2 ≤ h ∧ (∃ j, h = 2 ^ j) ∧ h ∣ N)) :
    setSwappedCell phase h (setSwappedCell phase h i) = i := by
  rcases hvalid with ⟨hp, _⟩ | ⟨h2, ⟨j, hj⟩, _⟩
  · subst hp; rfl
  · have hh0 : 0 < h := by omega
    have hj1 : 1 ≤ j := by
      rcases Nat.eq_zero_or_pos j with rfl | hp
      · rw [pow_zero] at hj; omega
      · exact hp
    have hsplit : h = 2 * 2 ^ (j - 1) := by
      have he : (2 : Nat) ^ j = 2 ^ (j - 1) * 2 := by
        rw [← pow_succ]
        congr 1
        omega
      omega
    have hm1 : 1 ≤ 2 ^ (j - 1) := Nat.one_le_two_pow
    cases phase with
    | NONE => rfl
    | DISPERSE_GLOBAL => rfl
    | FLIP_LOCAL => exact flip_involution h i hh0
    | FLIP_GLOBAL => exact flip_involution h i hh0
    | DISPERSE_LOCAL => exact disp_involution h i (2 ^ (j - 1)) hsplit hm1

/-- C5 witness: phase `DISPERSE_LOCAL`, N = 8, span 4, i = 1
(partner 3, whose partner is 1 again). -/
theorem c5_partner_involution_witness :
    ((1 : Nat) < 8 ∧
        (((.DISPERSE_LOCAL : StepType) = .NONE ∧ (4 : Nat) = 0) ∨
          (2 ≤ 4 ∧ (∃ j, (4 : Nat) = 2 ^ j) ∧ (4 : Nat) ∣ 8))) ∧
      setSwappedCell .DISPERSE_LOCAL 4 (setSwappedCell .DISPERSE_LOCAL 4 1) = 1 :=
  ⟨⟨by omega, Or.inr ⟨by omega, ⟨2, by norm_num⟩, by norm_num⟩⟩,
    c5_partner_involution .DISPERSE_LOCAL 8 4 1 (by omega)
      (Or.inr ⟨by omega, ⟨2, by norm_num⟩, by norm_num⟩)⟩

/-- C8.  For a valid index and a power-of-two span dividing the element
count, the predictor on the flip phases returns
`h * (i / h + 1) - i mod h - 1`, i.e. the mirror `h * (i / h) + (h - 1 - i mod h)`
of `i` inside its block of size `h`; in particular span 4, i = 1 gives 2. -/
theorem c8_flip_partner (N h i j : Nat) (_hiN : i < N) (_hj : 1 ≤ j)
    (hh : h = 2 ^ j) (_hdvd : h ∣ N) :
    setSwappedCell .FLIP_LOCAL h i = h * (i / h + 1) - i % h - 1 ∧
      setSwappedCell .FLIP_GLOBAL h i = h * (i / h + 1) - i % h - 1 ∧
      setSwappedCell .FLIP_LOCAL h i = h * (i / h) + (h - 1 - i % h) ∧
      setSwappedCell .FLIP_LOCAL 4 1 = 2 := by
  have hh0 : 0 < h := by
    subst hh
    exact pow_pos (by omega) j
  have hr : i % h < h := Nat.mod_lt _ hh0
  have hmul : h * (i / h + 1) = h * (i / h) + h := by ring
  refine ⟨rfl, rfl, ?_, by decide⟩
  show h * (i / h + 1) - i % h - 1 = h * (i / h) + (h - 1 - i % h)
  omega

/-- C8 witness: N = 8, span 4, i = 1: the flip partner is 2. -/
theorem c8_flip_partner_witness :
    ((1 : Nat) < 8 ∧ 1 ≤ 2 ∧ (4 : Nat) = 2 ^ 2 ∧ (4 : Nat) ∣ 8) ∧
      (setSwappedCell .FLIP_LOCAL 4 1 = 4 * (1 / 4 + 1) - 1 % 4 - 1 ∧
        setSwappedCell .FLIP_GLOBAL 4 1 = 4 * (1 / 4 + 1) - 1 % 4 - 1 ∧
        setSwappedCell .FLIP_LOCAL 4 1 = 4 * (1 / 4) + (4 - 1 - 1 % 4) ∧
        setSwappedCell .FLIP_LOCAL 4 1 = 2) :=
  ⟨⟨by omega, by omega, by norm_num, by norm_num⟩,
    c8_flip_partner 8 4 1 2 (by omega) (by omega) (by norm_num) (by norm_num)⟩

/-- C2 (code bug).  The `switch` in `setSwappedCell` has no
`DISPERSE_GLOBAL` case, so that phase falls through to `default`, which
reports the hovered cell itself: with span 4 and hovered index 1 the code
yields 1, while the disperse pairing rule (implemented for
`DISPERSE_LOCAL`, and documented as "the cell the hovered cell will swap
with in the next execution step") requires 1 + 4 / 2 = 3. -/
theorem c2_disperse_global_code_bug :
    setSwappedCell .DISPERSE_GLOBAL 4 1 = 1 ∧
      setSwappedCell .DISPERSE_LOCAL 4 1 = 3 ∧
      setSwappedCell .DISPERSE_GLOBAL 4 1 ≠ setSwappedCell .DISPERSE_LOCAL 4 1 := by
  decide

/-- Every `Total Elements` option generated from a power-of-two start is a
power of two ≥ 4. -/
theorem totalElementOptions_pow :
    ∀ k : Nat, ∀ x ∈ totalElementOptions (2 ^ k), (∃ j, x = 2 ^ j) ∧ 4 ≤ x := by
  intro k
  induction k with
  | zero =>
    intro x hx
    rw [totalElementOptions] at hx
    rw [if_neg (by norm_num)] at hx
    simp at hx
  | succ m ih =>
    intro x hx
    rw [totalElementOptions] at hx
    have hdiv : (2 : Nat) ^ (m + 1) / 2 = 2 ^ m := by
      rw [pow_succ]
      exact Nat.mul_div_cancel _ two_pos
    by_cases hc : 4 ≤ 2 ^ (m + 1)
    · rw [if_pos hc] at hx
      rcases List.mem_cons.mp hx with rfl | hx2
      · exact ⟨⟨m + 1, rfl⟩, hc⟩
      · rw [hdiv] at hx2
        exact ih x hx2
    · rw [if_neg hc] at hx
      simp at hx

/-- Every `Size Limit` option generated from a power-of-two start is a
power of two ≥ 2. -/
theorem sizeLimitOptions_pow :
    ∀ k : Nat, ∀ x ∈ sizeLimitOptions (2 ^ k), (∃ j, x = 2 ^ j) ∧ 2 ≤ x := by
  intro k
  induction k with
  | zero =>
    intro x hx
    rw [sizeLimitOptions] at hx
    rw [if_neg (by norm_num)] at hx
    simp at hx
  | succ m ih =>
    intro x hx
    rw [sizeLimitOptions] at hx
    have hdiv : (2 : Nat) ^ (m + 1) / 2 = 2 ^ m := by
      rw [pow_succ]
      exact Nat.mul_div_cancel _ two_pos
    by_cases hc : 2 ≤ 2 ^ (m + 1)
    · rw [if_pos hc] at hx
      rcases List.mem_cons.mp hx with rfl | hx2
      · exact ⟨⟨m + 1, rfl⟩, hc⟩
      · rw [hdiv] at hx2
        exact ih x hx2
    · rw [if_neg hc] at hx
      simp at hx

theorem totalElementOptions_step (x : Nat) (h : 4 ≤ x) :
    totalElementOptions x = x :: totalElementOptions (x / 2) := by
  rw [totalElementOptions, if_pos h]

theorem totalElementOptions_end (x : Nat) (h : x < 4) :
    totalElementOptions x = [] := by
  rw [totalElementOptions, if_neg (by omega)]

theorem sizeLimitOptions_step (x : Nat) (h : 2 ≤ x) :
    sizeLimitOptions x = x :: sizeLimitOptions (x / 2) := by
  rw [sizeLimitOptions, if_pos h]

theorem sizeLimitOptions_end (x : Nat) (h : x < 2) :
    sizeLimitOptions x = [] := by
  rw [sizeLimitOptions, if_neg (by omega)]

/-- C6 (amended).  Session creation never rejects a configuration and
raises no error: non-power-of-two sizes are prevented by construction (the
GUI offers only power-of-two `Total Elements` options ≥ 4 and power-of-two
`Size Limit` options ≥ 2), and a `sizeLimit` exceeding `totalElements / 2`
is accepted, with the effective workgroup size clamped to
`min (totalElements / 2) sizeLimit`. -/
theorem c6_creation_accepts_all (maxI m : Nat) (hm : maxI = 2 ^ m) :
    (∀ x ∈ totalElementOptions (maxI * 32), (∃ j, x = 2 ^ j) ∧ 4 ≤ x) ∧
      (∀ x ∈ sizeLimitOptions maxI, (∃ j, x = 2 ^ j) ∧ 2 ≤ x) ∧
      (∀ N L : Nat, ∀ es : List Nat, N / 2 < L →
        (initState N L es).workgroupSize = N / 2) ∧
      (∀ N L : Nat, ∀ es : List Nat, L ≤ N / 2 →
        (initState N L es).workgroupSize = L) := by
  subst hm
  have h32 : (2 : Nat) ^ m * 32 = 2 ^ (m + 5) := by
    rw [pow_add]
    norm_num
  refine ⟨?_, sizeLimitOptions_pow m, ?_, ?_⟩
  · rw [h32]
    exact totalElementOptions_pow (m + 5)
  · intro N L es hNL
    show min (N / 2) L = N / 2
    exact min_eq_left (by omega)
  · intro N L es hNL
    show min (N / 2) L = L
    exact min_eq_right hNL

/-- C6 witness: `maxInvocationsX = 256`. -/
theorem c6_creation_accepts_all_witness :
    ((256 : Nat) = 2 ^ 8) ∧
      ((∀ x ∈ totalElementOptions (256 * 32), (∃ j, x = 2 ^ j) ∧ 4 ≤ x) ∧
        (∀ x ∈ sizeLimitOptions 256, (∃ j, x = 2 ^ j) ∧ 2 ≤ x) ∧
        (∀ N L : Nat, ∀ es : List Nat, N / 2 < L →
          (initState N L es).workgroupSize = N / 2) ∧
        (∀ N L : Nat, ∀ es : List Nat, L ≤ N / 2 →
          (initState N L es).workgroupSize = L)) :=
  ⟨by norm_num, c6_creation_accepts_all 256 8 (by norm_num)⟩

/-- C6 counterexample to the claim as stated: the configuration
`totalElements = 4`, `sizeLimit = 256` (offered by the GUI for
`maxInvocationsX = 256`, and violating `sizeLimit ≤ totalElements / 2`) is
not rejected: session creation succeeds, merely clamping the workgroup
size to 2; no `ConfigurationError` exists anywhere in the code. -/
theorem c6_oversized_limit_accepted :
    (4 : Nat) ∈ totalElementOptions (256 * 32) ∧
      (256 : Nat) ∈ sizeLimitOptions 256 ∧
      ¬((256 : Nat) ≤ 4 / 2) ∧
      (initState 4 256 []).totalElements = 4 ∧
      (initState 4 256 []).sizeLimit = 256 ∧
      (initState 4 256 []).workgroupSize = 2 ∧
      (initState 4 256 []).nextStep = .FLIP_LOCAL ∧
      (initState 4 256 []).nextSpan = 2 := by
  refine ⟨?_, ?_, by norm_num, rfl, rfl, rfl, rfl, rfl⟩
  · simp [totalElementOptions_step, totalElementOptions_end]
  · simp [sizeLimitOptions_step, sizeLimitOptions_end]

/-- `ceilDiv a b` is the least multiple-count covering `a`. -/
theorem ceilDiv_spec (a b : Nat) (hb : 0 < b) :
    a ≤ b * ceilDiv a b ∧ b * ceilDiv a b < a + b := by
  unfold ceilDiv
  have h1 := Nat.div_add_mod (a + b - 1) b
  have h2 : (a + b - 1) % b < b := Nat.mod_lt _ hb
  omega

/-- C9.  Every state of a session run carries the workgroup count
`ceil((totalElements - 1) / (sizeLimit * 2))`; that value is the least
number of workgroups of `sizeLimit * 2` elements covering the
`totalElements - 1` span, and for N = 4, L = 2 it equals 1. -/
theorem c9_workgroups_per_step (N L k : Nat) (es : List Nat)
    (exec : StepType → Nat → List Nat → List Nat) (hL : 1 ≤ L) :
    (fullRun N L es exec k).workgroupsPerStep = ceilDiv (N - 1) (L * 2) ∧
      N - 1 ≤ L * 2 * ceilDiv (N - 1) (L * 2) ∧
      L * 2 * ceilDiv (N - 1) (L * 2) < (N - 1) + L * 2 ∧
      (initState 4 2 es).workgroupsPerStep = 1 := by
  obtain ⟨_, _, _, hwps, _⟩ := fullRun_const N L es exec k
  obtain ⟨hcover, hleast⟩ := ceilDiv_spec (N - 1) (L * 2) (by omega)
  exact ⟨hwps, hcover, hleast, rfl⟩

/-- C9 witness: N = 4, L = 2, at step 0. -/
theorem c9_workgroups_per_step_witness :
    (1 ≤ 2) ∧
      ((fullRun 4 2 [0, 1, 2, 3] idExec 0).workgroupsPerStep =
          ceilDiv (4 - 1) (2 * 2) ∧
        4 - 1 ≤ 2 * 2 * ceilDiv (4 - 1) (2 * 2) ∧
        2 * 2 * ceilDiv (4 - 1) (2 * 2) < (4 - 1) + 2 * 2 ∧
        (initState 4 2 [0, 1, 2, 3]).workgroupsPerStep = 1) :=
  ⟨by omega, c9_workgroups_per_step 4 2 0 [0, 1, 2, 3] idExec (by omega)⟩
